import Mathlib

/-!
Verification of the comment-pattern generation engine of the
vsc-comments-toolkit VS Code extension (`src/extension.ts`).

The engine is shallowly embedded: JavaScript strings are modelled as
`List Char` (with `String` wrappers at the API boundary), the mutable
`Map` objects (`placeholderMap`, `patternCache`) are threaded explicitly
as association lists, `try`/`catch` blocks become explicit fallback
branches, and calls to the `logger` collaborator are collected in an
output list of log levels.  JavaScript-specific semantics are modelled
faithfully:

* `String.prototype.includes` returns `true` for the empty search string;
* `String.prototype.replace` with a string pattern replaces only the
  first occurrence, and an empty pattern matches at index 0;
* regex replacement with the `g` flag scans left to right without
  rescanning replacement output;
* `String.prototype.repeat` throws a `RangeError` for a negative count
  (`Math.floor(fillLength / 2)` is negative exactly when `fillLength < 0`);
* `if (p2)` treats the empty string as false;
* `Map.prototype.set` overwrites the previous binding.
-/

namespace CommentToolkit

/-- Log levels of the `logger` collaborator (`logger.ts`). -/
inductive LogLevel where
  | info
  | warning
  | error
deriving DecidableEq, Repr

/-- JavaScript strings, modelled as lists of characters. -/
abbrev Chars := List Char

/-- The `placeholderMap` / `patternCache` maps: association lists where the
most recent binding of a key shadows the older ones (observationally the
behaviour of `Map.prototype.set` / `Map.prototype.get`). -/
abbrev PMap := List (String × String)

/-- `Map.prototype.get`: first binding of the key, if any. -/
def pmGet : PMap → String → Option String
  | [], _ => none
  | (k, v) :: m, key => if k = key then some v else pmGet m key

/-- Generic association-list lookup (used for the delimiter registry and
the pattern cache). -/
def lookupAssoc {α : Type} : List (String × α) → String → Option α
  | [], _ => none
  | (k, v) :: m, key => if k = key then some v else lookupAssoc m key

/-- Does `s` start with `p`? -/
def startsWithC : Chars → Chars → Bool
  | _, [] => true
  | [], _ :: _ => false
  | c :: cs, p :: ps => c = p && startsWithC cs ps

/-- JavaScript `String.prototype.includes`: substring test; an empty
search string is always found. -/
def containsSubC : Chars → Chars → Bool
  | [], p => p.isEmpty
  | c :: cs, p => startsWithC (c :: cs) p || containsSubC cs p

/-- Auxiliary scanner for `replaceFirstC`: replaces the first occurrence
of the (nonempty) pattern `pat` by `repl`. -/
def replaceFirstAuxC (pat repl : Chars) : Chars → Chars
  | [] => []
  | c :: cs =>
    if startsWithC (c :: cs) pat then repl ++ (c :: cs).drop pat.length
    else c :: replaceFirstAuxC pat repl cs

/-- JavaScript `String.prototype.replace` with a plain-string pattern:
replaces the first occurrence only; the empty pattern matches at index 0
(so the replacement is prepended). -/
def replaceFirstC (s pat repl : Chars) : Chars :=
  if pat.isEmpty then repl ++ s else replaceFirstAuxC pat repl s

/-- Auxiliary scanner for `replaceAllC`.  The fuel argument only bounds the
recursion depth: every step consumes at least one character, so with fuel
at least the input length the zero-fuel fallback is never reached. -/
def replaceAllAuxC (pat repl : Chars) : Nat → Chars → Chars
  | _, [] => []
  | 0, s => s
  | fuel + 1, c :: cs =>
    if startsWithC (c :: cs) pat && !pat.isEmpty then
      repl ++ replaceAllAuxC pat repl fuel (cs.drop (pat.length - 1))
    else
      c :: replaceAllAuxC pat repl fuel cs

/-- JavaScript `String.prototype.replace` with a global regex whose
pattern is a nonempty literal token: scans left to right, never
rescanning replacement output. -/
def replaceAllC (pat repl s : Chars) : Chars :=
  replaceAllAuxC pat repl s.length s

/-- JavaScript `String.prototype.repeat` on a nonnegative count: the
whole string repeated `n` times. -/
def repeatListC (s : Chars) : Nat → Chars
  | 0 => []
  | n + 1 => s ++ repeatListC s n

/-- Whitespace characters relevant for `String.prototype.trim`. -/
def isWSChar (c : Char) : Bool :=
  c = ' ' || c = '\t' || c = '\n' || c = '\r'

/-- JavaScript `String.prototype.trim`. -/
def trimC (s : Chars) : Chars :=
  ((s.dropWhile isWSChar).reverse.dropWhile isWSChar).reverse

/-- JavaScript `String.prototype.split('\n')`. -/
def splitNLC : Chars → List Chars
  | [] => [[]]
  | c :: cs =>
    if c = '\n' then [] :: splitNLC cs
    else
      match splitNLC cs with
      | [] => [[c]]
      | l :: ls => (c :: l) :: ls

/-- JavaScript `Array.prototype.join('\n')`. -/
def joinNLC : List Chars → Chars
  | [] => []
  | [l] => l
  | l :: ls => l ++ '\n' :: joinNLC ls

/-- Greedy `\d+`: maximal run of leading ASCII digits and the remainder. -/
def takeDigits : Chars → Chars × Chars
  | [] => ([], [])
  | c :: cs =>
    if c.isDigit then (c :: (takeDigits cs).1, (takeDigits cs).2)
    else ([], c :: cs)

/-- `parseInt(p1, 10)` on a digit string. -/
def digitsToNat (ds : Chars) : Nat :=
  ds.foldl (fun n c => n * 10 + (c.toNat - 48)) 0

/-- Match of the regex `\[s:(\d+)\]` at the start of the input: the parsed
count and the remaining characters. -/
def matchNumMarker (s : Chars) : Option (Nat × Chars) :=
  match s with
  | c1 :: c2 :: c3 :: rest =>
    if c1 = '[' && c2 = 's' && c3 = ':' then
      let p := takeDigits rest
      if p.1.isEmpty then none
      else
        match p.2 with
        | ']' :: r2 => some (digitsToNat p.1, r2)
        | _ => none
    else none
  | _ => none

theorem takeDigits_snd_length : ∀ s : Chars, (takeDigits s).2.length ≤ s.length
  | [] => Nat.le_refl _
  | c :: cs => by
    simp only [takeDigits]
    split
    · exact Nat.le_succ_of_le (takeDigits_snd_length cs)
    · simp

/-- Auxiliary scanner for `interpretNumC`; the fuel only bounds the
recursion depth (a marker match consumes at least five characters). -/
def interpretNumAuxC : Nat → Chars → Chars
  | _, [] => []
  | 0, s => s
  | fuel + 1, c :: cs =>
    match matchNumMarker (c :: cs) with
    | some (n, rest) => List.replicate n ' ' ++ interpretNumAuxC fuel rest
    | none => c :: interpretNumAuxC fuel cs

/-- The first regex pass of `interpretSpaces`
(`content.replace(/\[s:(\d+)\]/g, (m, p1) => ' '.repeat(parseInt(p1, 10)))`). -/
def interpretNumC (s : Chars) : Chars :=
  interpretNumAuxC s.length s

/-- The `[s]` space marker. -/
def sTok : Chars := "[s]".data

/-- The `[fill]` directive. -/
def fillTok : Chars := "[fill]".data

/-- The `[spaceFill]` directive. -/
def spaceFillTok : Chars := "[spaceFill]".data

/-- `interpretSpaces` on character lists: the `[s:N]` pass followed by the
`[s]` pass (`.replace(/\[s\]/g, ' ')`).  The `try`/`catch` in the source
cannot fire (no operation inside throws), so no error path is modelled. -/
def interpretSpacesC (s : Chars) : Chars :=
  replaceAllC sTok [' '] (interpretNumC s)

/-- Lazy `(.*?)` followed by `\}`: the characters up to the first `'}'`
(`.` does not match a newline), and the remainder after it. -/
def takeUntilRBrace : Chars → Option (Chars × Chars)
  | [] => none
  | c :: cs =>
    if c = '}' then some ([], cs)
    else if c = '\n' then none
    else
      match takeUntilRBrace cs with
      | some (a, r) => some (c :: a, r)
      | none => none

/-- Match of the regex `\$\{(\d+)(?::(.*?))?\}` at the start of the input:
the index digits, the optional default text, and the remainder. -/
def matchPlaceholder (s : Chars) : Option (Chars × Option Chars × Chars) :=
  match s with
  | c1 :: c2 :: rest =>
    if c1 = '$' && c2 = '{' then
      let p := takeDigits rest
      if p.1.isEmpty then none
      else
        match p.2 with
        | '}' :: r2 => some (p.1, none, r2)
        | ':' :: r2 =>
          match takeUntilRBrace r2 with
          | some (d, r3) => some (p.1, some d, r3)
          | none => none
        | _ => none
    else none
  | _ => none

/-- Auxiliary scanner for `substPlaceholdersC`; the fuel only bounds the
recursion depth (a placeholder match consumes at least four characters). -/
def substPlaceholdersAuxC : Nat → PMap → Chars → Chars × PMap
  | _, pm, [] => ([], pm)
  | 0, pm, s => (s, pm)
  | fuel + 1, pm, c :: cs =>
    match matchPlaceholder (c :: cs) with
    | some (ds, some d, rest) =>
      if d.isEmpty then
        let v := ((pmGet pm (String.mk ds)).getD "").data
        let p := substPlaceholdersAuxC fuel pm rest
        (v ++ p.1, p.2)
      else
        let p := substPlaceholdersAuxC fuel ((String.mk ds, String.mk d) :: pm) rest
        (d ++ p.1, p.2)
    | some (ds, none, rest) =>
      let v := ((pmGet pm (String.mk ds)).getD "").data
      let p := substPlaceholdersAuxC fuel pm rest
      (v ++ p.1, p.2)
    | none =>
      let p := substPlaceholdersAuxC fuel pm cs
      (c :: p.1, p.2)

/-- The placeholder-substitution pass of `calculateContentLength`
(`interpretedContent.replace(/\$\{(\d+)(?::(.*?))?\}/g, ...)`): returns the
substituted text together with the updated placeholder map.  An occurrence
with a nonempty default substitutes the default and stores it (overwriting);
an occurrence with no default, or an empty default (`if (p2)` is false for
`''`), substitutes the stored value or the empty string. -/
def substPlaceholdersC (pm : PMap) (s : Chars) : Chars × PMap :=
  substPlaceholdersAuxC s.length pm s

/-- `calculateContentLength` on character lists: interpret spaces, apply the
placeholder substitution, return the length of the substituted text plus the
updated map.  The `try`/`catch` in the source cannot fire for any input
representable here, so no error path is modelled. -/
def calculateContentLengthC (content : Chars) (pm : PMap) : Nat × PMap :=
  let p := substPlaceholdersC pm (interpretSpacesC content)
  (p.1.length, p.2)

/-- `interpretSpaces` (source line 281). -/
def interpretSpaces (content : String) : String :=
  String.mk (interpretSpacesC content.data)

/-- `calculateContentLength` (source line 298): length of the content after
space interpretation and placeholder substitution, plus the updated
placeholder map. -/
def calculateContentLength (content : String) (pm : PMap) : Nat × PMap :=
  calculateContentLengthC content.data pm

/-- One entry of `commentStyles`: the single-line `(start, end)` delimiters
and the optional multi-line `(start, end)` delimiters (`none` models
`multiLine: false`). -/
structure CommentStyle where
  singleLine : String × String
  multiLine : Option (String × String)
deriving DecidableEq, Repr

/-- The `commentStyles` delimiter registry (source lines 202-259),
transcribed entry by entry. -/
def commentStyles : List (String × CommentStyle) :=
  [ ("abap", ⟨("*", ""), some ("/*", "*/")⟩)
  , ("bat", ⟨("REM", ""), none⟩)
  , ("bibtex", ⟨("%", ""), none⟩)
  , ("clojure", ⟨(";;", ""), none⟩)
  , ("coffeescript", ⟨("#", ""), some ("###", "###")⟩)
  , ("c", ⟨("//", ""), some ("/*", "*/")⟩)
  , ("cpp", ⟨("//", ""), some ("/*", "*/")⟩)
  , ("csharp", ⟨("//", ""), some ("/*", "*/")⟩)
  , ("cuda-cpp", ⟨("//", ""), some ("/*", "*/")⟩)
  , ("css", ⟨("/*", "*/"), some ("/*", "*/")⟩)
  , ("diff", ⟨("#", ""), none⟩)
  , ("dockerfile", ⟨("#", ""), none⟩)
  , ("fsharp", ⟨("//", ""), some ("(*", "*)")⟩)
  , ("git-commit", ⟨("#", ""), none⟩)
  , ("git-rebase", ⟨("#", ""), none⟩)
  , ("go", ⟨("//", ""), some ("/*", "*/")⟩)
  , ("groovy", ⟨("//", ""), some ("/*", "*/")⟩)
  , ("handlebars", ⟨("\x7b\x7b!--", "--\x7d\x7d"), some ("\x7b\x7b!--", "--\x7d\x7d")⟩)
  , ("html", ⟨("<!--", "-->"), some ("<!--", "-->")⟩)
  , ("ini", ⟨(";", ""), none⟩)
  , ("java", ⟨("//", ""), some ("/*", "*/")⟩)
  , ("javascript", ⟨("//", ""), some ("/*", "*/")⟩)
  , ("javascriptreact", ⟨("\x7b/*", "*/\x7d"), some ("\x7b/*", "*/\x7d")⟩)
  , ("json", ⟨("//", ""), some ("/*", "*/")⟩)
  , ("jsonc", ⟨("//", ""), some ("/*", "*/")⟩)
  , ("latex", ⟨("%", ""), none⟩)
  , ("less", ⟨("//", ""), some ("/*", "*/")⟩)
  , ("lua", ⟨("--", ""), some ("--[[", "]]")⟩)
  , ("makefile", ⟨("#", ""), none⟩)
  , ("markdown", ⟨("<!--", "-->"), some ("<!--", "-->")⟩)
  , ("objective-c", ⟨("//", ""), some ("/*", "*/")⟩)
  , ("objective-cpp", ⟨("//", ""), some ("/*", "*/")⟩)
  , ("perl", ⟨("#", ""), none⟩)
  , ("perl6", ⟨("#", ""), none⟩)
  , ("php", ⟨("//", ""), some ("/*", "*/")⟩)
  , ("plaintext", ⟨("", ""), none⟩)
  , ("powershell", ⟨("#", ""), some ("<#", "#>")⟩)
  , ("jade", ⟨("//-", ""), some ("/*", "*/")⟩)
  , ("python", ⟨("#", ""), some ("\"\"\"", "\"\"\"")⟩)
  , ("r", ⟨("#", ""), some ("/*", "*/")⟩)
  , ("razor", ⟨("@*", "*@"), some ("@*", "*@")⟩)
  , ("ruby", ⟨("#", ""), some ("=begin", "=end")⟩)
  , ("rust", ⟨("//", ""), some ("/*", "*/")⟩)
  , ("scss", ⟨("//", ""), some ("/*", "*/")⟩)
  , ("sass", ⟨("//", ""), some ("/*", "*/")⟩)
  , ("shaderlab", ⟨("//", ""), some ("/*", "*/")⟩)
  , ("shellscript", ⟨("#", ""), none⟩)
  , ("sql", ⟨("--", ""), some ("/*", "*/")⟩)
  , ("swift", ⟨("//", ""), some ("/*", "*/")⟩)
  , ("typescript", ⟨("//", ""), some ("/*", "*/")⟩)
  , ("typescriptreact", ⟨("\x7b/*", "*/\x7d"), some ("\x7b/*", "*/\x7d")⟩)
  , ("tex", ⟨("%", ""), none⟩)
  , ("vb", ⟨(String.mk [Char.ofNat 39], ""), none⟩)
  , ("xml", ⟨("<!--", "-->"), some ("<!--", "-->")⟩)
  , ("xsl", ⟨("<!--", "-->"), some ("<!--", "-->")⟩)
  , ("yaml", ⟨("#", ""), none⟩) ]

/-- The `globalPatterns` template table (source lines 261-271). -/
def globalPatterns : List (String × String) :=
  [ ("section", "[fill]multiLineStart\n[spaceFill]${1:Section}\n[fill] multiLineEnd\n\n[s]${2:}\n\nmultiLineStart[fill] End of ${1} multiLineEnd")
  , ("section-header", "[fill]multiLineStart\n[spaceFill]${1:Section}\n[fill] multiLineEnd\n")
  , ("section-footer", "\nmultiLineStart[fill] End of ${1:Section} multiLineEnd")
  , ("subsection", "multiLineStart[s]${1:Subsection}\n[fill] multiLineEnd\n\n[s]${2:}\n\nmultiLineStart[s]End of ${1}\n[fill] multiLineEnd")
  , ("subsection-header", "multiLineStart[s]${1:Subsection}\n[fill] multiLineEnd\n")
  , ("subsection-footer", "\nmultiLineStart[s]End of ${1:Subsection}\n[fill] multiLineEnd")
  , ("simple", "singleLineStart[s]${1:Comment}singleLineEnd")
  , ("block", "multiLineStart*\n*\n*[s]${1:Block}\n*\nmultiLineEnd")
  , ("todo", "multiLineStart*\n\n[s:4]TODO:\n[s:4]- First todo item\n[s:4]- Second todo item\n\nmultiLineEnd") ]

/-- The generic `multiLineStart` token. -/
def mlsTok : Chars := "multiLineStart".data

/-- The generic `multiLineEnd` token. -/
def mleTok : Chars := "multiLineEnd".data

/-- The generic `singleLineStart` token. -/
def slsTok : Chars := "singleLineStart".data

/-- The generic `singleLineEnd` token. -/
def sleTok : Chars := "singleLineEnd".data

/-- The "bare content" isolated by `adjustLineLength` (source lines
335-341): the line with the fill directives and the first occurrence of
each delimiter removed, then trimmed. -/
def strippedContent (line mls mle sls sle : Chars) : Chars :=
  trimC (replaceFirstC (replaceFirstC (replaceFirstC (replaceFirstC
    (replaceFirstC (replaceFirstC line fillTok []) spaceFillTok [])
    mls []) mle []) sls []) sle [])

/-- `interpretedContent` in `adjustLineLength` (source line 342). -/
def interpretedContent (line mls mle sls sle : Chars) : Chars :=
  interpretSpacesC (strippedContent line mls mle sls sle)

/-- `contentLength` and the updated placeholder map in `adjustLineLength`
(source line 343; the map mutation persists even when the later
`repeat` throws). -/
def contentLengthPair (line mls mle sls sle : Chars) (pm : PMap) : Nat × PMap :=
  calculateContentLengthC (interpretedContent line mls mle sls sle) pm

/-- `startLength` in `adjustLineLength` (source line 345); `line.includes`
is true for an empty delimiter. -/
def startLengthOf (line mls sls : Chars) : Nat :=
  (if containsSubC line mls then mls.length else 0) +
  (if containsSubC line sls ∧ sls ≠ mls then sls.length else 0)

/-- `endLength` in `adjustLineLength` (source line 346). -/
def endLengthOf (line mle sle : Chars) : Nat :=
  (if containsSubC line mle then mle.length else 0) +
  (if containsSubC line sle ∧ sle ≠ mle then sle.length else 0)

/-- `spacesBetweenParts` in `adjustLineLength` (source line 348). -/
def spacesBetweenOf (startLength endLength contentLength : Nat) : Nat :=
  (if 0 < startLength then 1 else 0) +
  (if 0 < endLength then 1 else 0) +
  (if 0 < contentLength then 2 else 0)

/-- `minimumLength` of a line as the specification defines it:
`contentLength + startLength + endLength + spacesBetweenParts`, the
width of the rendered line with an empty filler budget. -/
def adjustMinimumLength (line mls mle sls sle : Chars) (pm : PMap) : Nat :=
  let cl := (contentLengthPair line mls mle sls sle pm).1
  let sl := startLengthOf line mls sls
  let el := endLengthOf line mle sle
  cl + sl + el + spacesBetweenOf sl el cl

/-- `adjustLineLength` (source lines 328-373) on character lists.
`fillLength` may be negative, in which case
`separator.repeat(Math.floor(fillLength / 2))` (resp. `' '.repeat(...)`)
throws a `RangeError`; the surrounding `catch` logs one error and returns
the input line unchanged (the placeholder map keeps the mutations made by
`calculateContentLength` before the throw). -/
def adjustLineLengthC (line : Chars) (baseLength : Int)
    (separator mls mle sls sle : Chars) (pm : PMap) :
    Chars × PMap × List LogLevel :=
  let clp := contentLengthPair line mls mle sls sle pm
  let contentLength := clp.1
  let pm' := clp.2
  let ic := interpretedContent line mls mle sls sle
  let startLength := startLengthOf line mls sls
  let endLength := endLengthOf line mle sle
  let spacesBetweenParts := spacesBetweenOf startLength endLength contentLength
  let fillLength : Int :=
    baseLength - contentLength - startLength - endLength - spacesBetweenParts
  let start :=
    (if containsSubC line mls then mls else []) ++
    (if containsSubC line sls ∧ sls ≠ mls then sls else [])
  let endDelim :=
    (if containsSubC line mle then mle else []) ++
    (if containsSubC line sle ∧ sle ≠ mle then sle else [])
  if containsSubC line fillTok then
    if fillLength < 0 then (line, pm', [LogLevel.error])
    else
      let n := fillLength.toNat
      let fill := repeatListC separator (n / 2)
      let extraSeparator := if n % 2 = 1 then separator else []
      (start ++ (if start ≠ [] then [' '] else []) ++ fill ++
        (if ic ≠ [] then ' ' :: (ic ++ [' ']) else []) ++
        extraSeparator ++ fill ++
        (if endDelim ≠ [] then [' '] else []) ++ endDelim, pm', [])
  else if containsSubC line spaceFillTok then
    if fillLength < 0 then (line, pm', [LogLevel.error])
    else
      let n := fillLength.toNat
      let fill := List.replicate (n / 2) ' '
      let extraSpace := if n % 2 = 1 then [' '] else []
      (start ++ (if start ≠ [] then [' '] else []) ++ separator ++ fill ++
        ic ++ extraSpace ++ fill ++ separator ++
        (if endDelim ≠ [] then [' '] else []) ++ endDelim, pm', [])
  else
    (start ++ ic ++ endDelim, pm', [])

/-- `adjustLineLength` (source line 328), with the source's argument order.
Returns the adjusted line, the updated placeholder map, and the error-level
log entries emitted. -/
def adjustLineLength (line : String) (baseLength : Int)
    (separator multiLineStart multiLineEnd singleLineStart singleLineEnd : String)
    (placeholderMap : PMap) : String × PMap × List LogLevel :=
  let r := adjustLineLengthC line.data baseLength separator.data
    multiLineStart.data multiLineEnd.data singleLineStart.data
    singleLineEnd.data placeholderMap
  (String.mk r.1, r.2.1, r.2.2)

/-- The per-line body of `generateCommentPattern` (source lines 401-440):
token presence flags are computed on the raw line, the generic tokens are
substituted, the degradation / spacing rules are applied, and the line is
handed to `adjustLineLength` with the delimiters that were present.  In the
`multiLine === false` branch the `multiLineStart`/`multiLineEnd` variables
hold the empty string (source lines 395-396), so the adjuster receives `[]`
for them. -/
def processLineC (style : CommentStyle) (baseLength : Int) (separator : Chars)
    (pm : PMap) (line0 : Chars) : Chars × PMap × List LogLevel :=
  let hasSLS0 := containsSubC line0 slsTok
  let hasSLE0 := containsSubC line0 sleTok
  let hasMLS0 := containsSubC line0 mlsTok
  let hasMLE0 := containsSubC line0 mleTok
  let sls := style.singleLine.1.data
  let sle := style.singleLine.2.data
  let line1 := replaceAllC sleTok sle (replaceAllC slsTok sls line0)
  match style.multiLine with
  | none =>
    let line2 := replaceAllC mleTok sle (replaceAllC mlsTok sls line1)
    let hasSLS1 := hasSLS0 || hasMLS0
    let hasSLE1 := hasSLE0 || hasMLE0
    let prependCond := !(trimC line2).isEmpty && !containsSubC line2 sls
    let line3 :=
      if prependCond then sls ++ ' ' :: line2
      else if containsSubC line2 sls then replaceFirstC line2 sls (sls ++ [' '])
      else line2
    let hasSLS2 := hasSLS1 || prependCond
    adjustLineLengthC line3 baseLength separator [] []
      (if hasSLS2 then sls else []) (if hasSLE1 then sle else []) pm
  | some ml =>
    let mls := ml.1.data
    let mle := ml.2.data
    let line2 := replaceAllC mleTok mle (replaceAllC mlsTok mls line1)
    let line3 :=
      if mls = mle then
        if containsSubC line2 mls then replaceFirstC line2 mls (mls ++ [' '])
        else line2
      else if containsSubC line2 mls && !containsSubC line2 mle then
        replaceFirstC line2 mls (mls ++ [' '])
      else if containsSubC line2 mls && containsSubC line2 mle then
        replaceFirstC (replaceFirstC line2 mls (mls ++ [' '])) mle (' ' :: mle)
      else line2
    adjustLineLengthC line3 baseLength separator
      (if hasMLS0 then mls else []) (if hasMLE0 then mle else [])
      (if hasSLS0 then sls else []) (if hasSLE0 then sle else []) pm

/-- The `lines.map(...)` loop of `generateCommentPattern` (source lines
401-441): processes the lines in order, threading the single placeholder
map of the call, and collects the outputs and log entries. -/
def processLinesC (style : CommentStyle) (baseLength : Int) (separator : Chars) :
    PMap → List Chars → List Chars × PMap × List LogLevel
  | pm, [] => ([], pm, [])
  | pm, l :: ls =>
    let r := processLineC style baseLength separator pm l
    let rs := processLinesC style baseLength separator r.2.1 ls
    (r.1 :: rs.1, rs.2.1, r.2.2 ++ rs.2.2)

/-- `generateCommentPattern` (source lines 383-450).  The pattern cache is
threaded explicitly; `baseLength` and `separator` are the module-level
values read once at load time (source line 200).  On a cache hit the cached
string is returned unchanged with no log output.  An unknown language makes
`commentStyle.singleLine` throw (`commentStyles[language]` is `undefined`);
the `catch` logs one error and returns the raw template.  On a successful
generation the result is cached and one info-level entry is logged. -/
def generateCommentPattern (cache : PMap) (baseLength : Int) (separator : String)
    (language patternKey pattern : String) : String × PMap × List LogLevel :=
  let cacheKey := language ++ "-" ++ patternKey
  match lookupAssoc cache cacheKey with
  | some v => (v, cache, [])
  | none =>
    match lookupAssoc commentStyles language with
    | none => (pattern, cache, [LogLevel.error])
    | some style =>
      let lines := splitNLC pattern.data
      let r := processLinesC style baseLength separator.data [] lines
      let result := String.mk (joinNLC r.1)
      (result, (cacheKey, result) :: cache, r.2.2 ++ [LogLevel.info])

/-- Number of newline-separated lines of a string, as
`String.prototype.split('\n')` counts them. -/
def countLines (s : String) : Nat :=
  (splitNLC s.data).length

/-- The two configuration values (`getConfiguration`, source lines
192-198). -/
structure Configuration where
  baseLength : Int
  separator : String
deriving DecidableEq, Repr

/-- The module-level mutable state of `extension.ts`: `loadConfig` is the
result of `const { baseLength, separator } = getConfiguration()` evaluated
once when the module is loaded (source line 200), and `patternCache` is the
module-level cache (source line 190). -/
structure EngineState where
  loadConfig : Configuration
  patternCache : PMap
deriving DecidableEq, Repr

/-- The `onDidChangeConfiguration` handler registered by `activate`
(source lines 567-572) for an event affecting `commentToolkit`: it clears
the pattern cache wholesale and logs one info-level message.  It does not
re-read the configuration. -/
def handleConfigurationChange (s : EngineState) : EngineState × List LogLevel :=
  ({ s with patternCache := [] }, [LogLevel.info])

/-- `generateCommentPattern` as the running module calls it: with the
module-level cache and the `baseLength`/`separator` values captured at load
time. -/
def engineGenerate (s : EngineState) (language patternKey pattern : String) :
    String × EngineState × List LogLevel :=
  let r := generateCommentPattern s.patternCache s.loadConfig.baseLength
    s.loadConfig.separator language patternKey pattern
  (r.1, { s with patternCache := r.2.1 }, r.2.2)

/-- Does a template use the generic multi-line tokens? -/
def templUsesMulti (t : String) : Bool :=
  containsSubC t.data mlsTok || containsSubC t.data mleTok

/-- A rendered line is acceptable for a single-line-only language: it is
whitespace-only or carries the single-line start delimiter. -/
def c5LineOk (sls : String) (l : Chars) : Bool :=
  (trimC l).isEmpty || containsSubC l sls.data

/-- A rendered pattern is acceptable for a single-line-only language: no
generic multi-line token survives, and every line with non-whitespace
content carries the single-line start delimiter. -/
def c5ResultOk (sls : String) (r : String) : Bool :=
  !containsSubC r.data mlsTok && !containsSubC r.data mleTok &&
  (splitNLC r.data).all (c5LineOk sls)

/-- The graceful-degradation check: for every language of the registry with
`multiLine = false` and a nonempty single-line start delimiter, and every
pattern template of the extension that uses the generic multi-line tokens,
generating with an empty cache (base length 40, separator `=`) yields an
acceptable rendered pattern. -/
def checkDegradation (key : String) : Bool :=
  commentStyles.all (fun p =>
    match p.2.multiLine with
    | some _ => true
    | none =>
      if p.2.singleLine.1 = "" then true
      else globalPatterns.all (fun q =>
        !templUsesMulti q.2 ||
        c5ResultOk p.2.singleLine.1 (generateCommentPattern [] 40 "=" p.1 key q.2).1))

/-- C8: `calculateContentLength` on `"${1:World} ${1}"` starting from an
empty map returns the length of the fully substituted string
`"World World"` (11), and afterwards the map holds `"World"` under key
`"1"` — the later bare `${1}` resolved to the recorded value. -/
theorem spec_C8_placeholder_record :
    (calculateContentLength "${1:World} ${1}" []).1 = 11 ∧
    pmGet (calculateContentLength "${1:World} ${1}" []).2 "1" = some "World" := by
  decide

/-- C4: for a language id absent from the delimiter registry and a pattern
key absent from the cache, `generateCommentPattern` returns the template
unchanged, leaves the cache untouched, and emits exactly one error-level
log entry (the property access on the `undefined` registry entry throws and
the `catch` absorbs it). -/
theorem spec_C4_unknown_language (cache : PMap) (baseLength : Int)
    (separator language key pattern : String)
    (hlang : lookupAssoc commentStyles language = none)
    (hcache : lookupAssoc cache (language ++ "-" ++ key) = none) :
    generateCommentPattern cache baseLength separator language key pattern
      = (pattern, cache, [LogLevel.error]) := by
  simp only [generateCommentPattern, hcache, hlang]

/-- Witness for C4 at a concrete unknown language. -/
theorem spec_C4_unknown_language_witness :
    lookupAssoc commentStyles "not-a-real-language" = none ∧
    generateCommentPattern [] 40 "=" "not-a-real-language" "key1" "anyTemplate"
      = ("anyTemplate", [], [LogLevel.error]) :=
  ⟨by decide,
   spec_C4_unknown_language [] 40 "=" "not-a-real-language" "key1" "anyTemplate"
     (by decide) (by decide)⟩

/-- C6: memoization.  For a language known to the registry, after any call
`generateCommentPattern cache b ... key t` (which either hits the cache or
stores its result), a second call with the same `(language, key)` pair —
and an arbitrary, possibly different template — returns exactly the stored
string, leaves the cache unchanged, and emits no log entry at all (in
particular not the info-level entry that marks a run of the rendering
pipeline): the computation is not re-run. -/
theorem spec_C6_memoization (cache : PMap) (baseLength : Int)
    (separator language key t t' : String) (style : CommentStyle)
    (hlang : lookupAssoc commentStyles language = some style) :
    generateCommentPattern
        (generateCommentPattern cache baseLength separator language key t).2.1
        baseLength separator language key t'
      = ((generateCommentPattern cache baseLength separator language key t).1,
         (generateCommentPattern cache baseLength separator language key t).2.1,
         []) := by
  cases h : lookupAssoc cache (language ++ "-" ++ key) with
  | some v => simp only [generateCommentPattern, h, hlang]
  | none =>
    simp only [generateCommentPattern, h, hlang]
    simp [lookupAssoc]

/-- Witness for C6 at a concrete first call with a different second
template. -/
theorem spec_C6_memoization_witness :
    lookupAssoc commentStyles "javascript" = some ⟨("//", ""), some ("/*", "*/")⟩ ∧
    generateCommentPattern
        (generateCommentPattern [] 40 "=" "javascript" "k" "A").2.1
        40 "=" "javascript" "k" "B"
      = ((generateCommentPattern [] 40 "=" "javascript" "k" "A").1,
         (generateCommentPattern [] 40 "=" "javascript" "k" "A").2.1, []) :=
  ⟨by decide,
   spec_C6_memoization [] 40 "=" "javascript" "k" "A" "B"
     ⟨("//", ""), some ("/*", "*/")⟩ (by decide)⟩

/-- C2: the configuration-change handler clears the cache wholesale, but
the engine does **not** re-read the configuration: `baseLength` and
`separator` were destructured once at module load, so a generate call after
the change still renders with the load-time base length (40), not with the
newly configured one (50). -/
theorem spec_C2_stale_configuration :
    (handleConfigurationChange ⟨⟨40, "="⟩, [("seed", "v")]⟩).1
      = ⟨⟨40, "="⟩, []⟩ ∧
    ((engineGenerate (handleConfigurationChange ⟨⟨40, "="⟩, [("seed", "v")]⟩).1
        "javascript" "k" "[fill]multiLineStart").1).length = 40 ∧
    ((generateCommentPattern [] 50 "=" "javascript" "k" "[fill]multiLineStart").1).length
      = 50 := by
  decide

/-- C7: with an empty cache, base length 40 and separator `=`, and any
pattern key, the two specification examples render exactly. -/
theorem spec_C7_examples : ∀ key : String,
    (generateCommentPattern [] 40 "=" "javascript" key
        "singleLineStart[s]Hello singleLineEnd").1 = "// Hello" ∧
    (generateCommentPattern [] 40 "=" "css" key
        "multiLineStart[s]Hello[s]multiLineEnd").1 = "/* Hello */" :=
  fun _ => ⟨rfl, rfl⟩

/-- C5: graceful degradation.  For every language of the registry with
`multiLine = false` and a nonempty single-line start delimiter, every
pattern template of the extension that uses the `multiLineStart` /
`multiLineEnd` tokens, and any pattern key (the cache being empty, so the
call is a cache miss), the generated output contains no remaining
occurrence of the literal tokens, and every output line with
non-whitespace content contains the language's single-line start
delimiter. -/
theorem spec_C5_degradation : ∀ key : String, checkDegradation key = true := by
  set_option maxRecDepth 100000 in exact fun _ => rfl

theorem repeatListC_length (s : Chars) : ∀ n, (repeatListC s n).length = n * s.length
  | 0 => by simp [repeatListC]
  | n + 1 => by
    simp only [repeatListC, List.length_append, repeatListC_length s n]
    ring

/-- C9: whenever a fill directive is present and the filler budget is
negative (the base length is smaller than the line's minimum rendered
width), the internal `repeat` throws; `adjustLineLength` does not
propagate the exception: it emits exactly one error-level log entry and
returns its input line unchanged, directives and all (the placeholder map
keeps the mutations already made by `calculateContentLength`). -/
theorem spec_C9_catch_fallback (line : Chars) (baseLength : Int)
    (sep mls mle sls sle : Chars) (pm : PMap)
    (hdir : containsSubC line fillTok = true ∨ containsSubC line spaceFillTok = true)
    (hb : baseLength < (adjustMinimumLength line mls mle sls sle pm : Int)) :
    adjustLineLengthC line baseLength sep mls mle sls sle pm
      = (line, (contentLengthPair line mls mle sls sle pm).2, [LogLevel.error]) := by
  have hneg : baseLength - ((contentLengthPair line mls mle sls sle pm).1 : Int)
      - (startLengthOf line mls sls : Int) - (endLengthOf line mle sle : Int)
      - (spacesBetweenOf (startLengthOf line mls sls) (endLengthOf line mle sle)
          (contentLengthPair line mls mle sls sle pm).1 : Int) < 0 := by
    unfold adjustMinimumLength at hb
    push_cast at hb ⊢
    omega
  simp only [adjustLineLengthC]
  by_cases hf : containsSubC line fillTok = true
  · rw [if_pos hf, if_pos hneg]
  · have hs : containsSubC line spaceFillTok = true := by tauto
    rw [if_neg hf, if_pos hs, if_pos hneg]

/-- Witness for C9: a `[fill]` line whose content is wider than the base
length of 40. -/
theorem spec_C9_catch_fallback_witness :
    adjustLineLengthC "[fill]yyyyyyyyyyyyyyyyyyyyyyyyyyyyyyyyyyyyyyyyyyyyy".data
        40 "=".data "/*".data "*/".data "//".data "".data []
      = ("[fill]yyyyyyyyyyyyyyyyyyyyyyyyyyyyyyyyyyyyyyyyyyyyy".data,
         (contentLengthPair "[fill]yyyyyyyyyyyyyyyyyyyyyyyyyyyyyyyyyyyyyyyyyyyyy".data
           "/*".data "*/".data "//".data "".data []).2,
         [LogLevel.error]) :=
  spec_C9_catch_fallback _ _ _ _ _ _ _ _ (Or.inl (by decide)) (by decide)

/-- C1 (counterexample): a `[fill]` line whose content is wider than the
base length.  `minimumLength` is 43, so the claim demands a result of
length `max 40 43 = 43`; the code instead hits a negative repeat count,
catches the `RangeError`, and returns the 47-character input line. -/
theorem spec_C1_counterexample :
    ((adjustLineLength "[fill]xxxxxxxxxxxxxxxxxxxxxxxxxxxxxxxxxxxxxxxxx"
        40 "=" "/*" "*/" "//" "" []).1).length = 47 ∧
    adjustMinimumLength "[fill]xxxxxxxxxxxxxxxxxxxxxxxxxxxxxxxxxxxxxxxxx".data
        "/*".data "*/".data "//".data "".data [] = 43 ∧
    (47 : Nat) ≠ max 40 43 := by
  decide

/-- C1 (amended): for a `[fill]` line, base length 40, a one-character
separator, and content whose measured length is its literal length (no
numbered placeholder shortens it), the result has length exactly
`max 40 minimumLength` whenever `minimumLength ≤ 40`; when
`minimumLength > 40` the internal repeat fails and the input line is
returned unchanged instead. -/
theorem spec_C1_fill_width (line : Chars) (sep mls mle sls sle : Chars) (pm : PMap)
    (hfill : containsSubC line fillTok = true)
    (hsep : sep.length = 1)
    (hplain : (contentLengthPair line mls mle sls sle pm).1
        = (interpretedContent line mls mle sls sle).length) :
    (adjustMinimumLength line mls mle sls sle pm ≤ 40 →
      ((adjustLineLengthC line 40 sep mls mle sls sle pm).1).length
        = max 40 (adjustMinimumLength line mls mle sls sle pm)) ∧
    (40 < adjustMinimumLength line mls mle sls sle pm →
      (adjustLineLengthC line 40 sep mls mle sls sle pm).1 = line) := by
  constructor
  · intro hmin
    have hnneg : ¬((40 : Int) - ((contentLengthPair line mls mle sls sle pm).1 : Int)
        - (startLengthOf line mls sls : Int) - (endLengthOf line mle sle : Int)
        - (spacesBetweenOf (startLengthOf line mls sls) (endLengthOf line mle sle)
            (contentLengthPair line mls mle sls sle pm).1 : Int) < 0) := by
      simp only [adjustMinimumLength] at hmin
      omega
    rw [Nat.max_eq_left hmin]
    simp only [adjustLineLengthC]
    rw [if_pos hfill, if_neg hnneg]
    simp only [adjustMinimumLength] at hmin
    set cl := (contentLengthPair line mls mle sls sle pm).1 with hcl
    set sl := startLengthOf line mls sls with hsl
    set el := endLengthOf line mle sle with hel
    set sp := spacesBetweenOf sl el cl with hspdef
    set ic := interpretedContent line mls mle sls sle with hicdef
    set st := (if containsSubC line mls then mls else []) ++
        (if containsSubC line sls ∧ sls ≠ mls then sls else []) with hstdef
    set ed := (if containsSubC line mle then mle else []) ++
        (if containsSubC line sle ∧ sle ≠ mle then sle else []) with heddef
    have hstlen : st.length = sl := by
      rw [hstdef, hsl]
      simp [startLengthOf, apply_ite List.length]
    have hedlen : ed.length = el := by
      rw [heddef, hel]
      simp [endLengthOf, apply_ite List.length]
    have hstne : (st ≠ []) ↔ (0 < sl) := by
      rw [← hstlen]
      exact List.length_pos.symm
    have hedne : (ed ≠ []) ↔ (0 < el) := by
      rw [← hedlen]
      exact List.length_pos.symm
    have hicne : (ic ≠ []) ↔ (0 < cl) := by
      rw [hplain]
      exact List.length_pos.symm
    have hsplen : sp = (if 0 < sl then 1 else 0) + (if 0 < el then 1 else 0) +
        (if 0 < cl then 2 else 0) := by
      rw [hspdef]
      rfl
    simp only [hstne, hedne, hicne, List.length_append, repeatListC_length,
      hsep, Nat.mul_one, hstlen, hedlen, apply_ite List.length,
      List.length_cons, List.length_append, List.length_nil, ← hplain]
    rw [hsplen] at hmin ⊢
    split_ifs at hmin ⊢ <;> omega
  · intro hmin
    have hneg : (40 : Int) - ((contentLengthPair line mls mle sls sle pm).1 : Int)
        - (startLengthOf line mls sls : Int) - (endLengthOf line mle sle : Int)
        - (spacesBetweenOf (startLengthOf line mls sls) (endLengthOf line mle sle)
            (contentLengthPair line mls mle sls sle pm).1 : Int) < 0 := by
      simp only [adjustMinimumLength] at hmin
      omega
    simp only [adjustLineLengthC]
    rw [if_pos hfill, if_pos hneg]

/-- Witness for C1 (amended) at the test-suite input `"[fill]Hello World"`,
whose minimum length is 13. -/
theorem spec_C1_fill_width_witness :
    containsSubC "[fill]Hello World".data fillTok = true ∧
    adjustMinimumLength "[fill]Hello World".data "/*".data "*/".data "//".data "".data [] ≤ 40 ∧
    ((adjustLineLengthC "[fill]Hello World".data 40 "=".data "/*".data "*/".data
        "//".data "".data []).1).length
      = max 40 (adjustMinimumLength "[fill]Hello World".data "/*".data "*/".data
          "//".data "".data []) :=
  ⟨by decide, by decide,
   (spec_C1_fill_width "[fill]Hello World".data "=".data "/*".data "*/".data
      "//".data "".data [] (by decide) (by decide) (by decide)).1 (by decide)⟩

/-- C3 (counterexample): in `calculateContentLength("${1:A} ${1:BB}", {})`
the second occurrence of index 1 carries its own default `"BB"`; the code
substitutes `"BB"` (total `"A BB"`, length 4) and stores `"BB"`, whereas
the claim demands that the first default `"A"` fix the value for the later
occurrence as well (which would give `"A A"`, length 3, and a stored
`"A"`). -/
theorem spec_C3_counterexample :
    (calculateContentLength "${1:A} ${1:BB}" []).1 = 4 ∧
    pmGet (calculateContentLength "${1:A} ${1:BB}" []).2 "1" = some "BB" ∧
    ¬((calculateContentLength "${1:A} ${1:BB}" []).1 = 3 ∧
      pmGet (calculateContentLength "${1:A} ${1:BB}" []).2 "1" = some "A") := by
  decide

theorem matchNumMarker_none_head {c : Char} (t : Chars) (h : c ≠ '[') :
    matchNumMarker (c :: t) = none := by
  rcases t with _ | ⟨x, _ | ⟨y, t'⟩⟩ <;> simp [matchNumMarker, h]

theorem interpretNumAuxC_id : ∀ (fuel : Nat) (s : Chars), '[' ∉ s →
    interpretNumAuxC fuel s = s
  | _, [], _ => by cases ‹Nat›  <;> rfl
  | 0, _ :: _, _ => rfl
  | fuel + 1, c :: cs, h => by
    have hc : c ≠ '[' := fun hh => h (hh ▸ List.mem_cons_self c cs)
    have hcs : '[' ∉ cs := fun hh => h (List.mem_cons_of_mem c hh)
    simp only [interpretNumAuxC, matchNumMarker_none_head cs hc]
    rw [interpretNumAuxC_id fuel cs hcs]

theorem startsWithC_sTok_false {c : Char} (cs : Chars) (h : c ≠ '[') :
    startsWithC (c :: cs) sTok = false := by
  simp [startsWithC, sTok, h]

theorem replaceAllAuxC_sTok_id (repl : Chars) :
    ∀ (fuel : Nat) (s : Chars), '[' ∉ s →
      replaceAllAuxC sTok repl fuel s = s
  | _, [], _ => by cases ‹Nat› <;> rfl
  | 0, _ :: _, _ => rfl
  | fuel + 1, c :: cs, h => by
    have hc : c ≠ '[' := fun hh => h (hh ▸ List.mem_cons_self c cs)
    have hcs : '[' ∉ cs := fun hh => h (List.mem_cons_of_mem c hh)
    simp only [replaceAllAuxC, startsWithC_sTok_false cs hc, Bool.false_and,
      if_neg, Bool.false_eq_true, not_false_eq_true]
    rw [replaceAllAuxC_sTok_id repl fuel cs hcs]

/-- `interpretSpaces` leaves a string with no `'['` untouched. -/
theorem interpretSpacesC_id (s : Chars) (h : '[' ∉ s) :
    interpretSpacesC s = s := by
  unfold interpretSpacesC interpretNumC replaceAllC
  rw [interpretNumAuxC_id s.length s h, replaceAllAuxC_sTok_id [' '] s.length s h]

theorem takeUntilRBrace_append (a rest : Chars) (h1 : '}' ∉ a) (h2 : '\n' ∉ a) :
    takeUntilRBrace (a ++ '}' :: rest) = some (a, rest) := by
  induction a with
  | nil => simp [takeUntilRBrace]
  | cons c a' ih =>
    have hc1 : c ≠ '}' := fun hh => h1 (hh ▸ List.mem_cons_self c a')
    have hc2 : c ≠ '\n' := fun hh => h2 (hh ▸ List.mem_cons_self c a')
    have ha1 : '}' ∉ a' := fun hh => h1 (List.mem_cons_of_mem c hh)
    have ha2 : '\n' ∉ a' := fun hh => h2 (List.mem_cons_of_mem c hh)
    simp [takeUntilRBrace, hc1, hc2, ih ha1 ha2]

/-- A placeholder occurrence `${1:a}` at the head of the scanner input. -/
theorem matchPlaceholder_default (a rest : Chars) (h1 : '}' ∉ a) (h2 : '\n' ∉ a) :
    matchPlaceholder ('$' :: '{' :: '1' :: ':' :: (a ++ '}' :: rest))
      = some (['1'], some a, rest) := by
  simp [matchPlaceholder, takeDigits, takeUntilRBrace_append a rest h1 h2]

/-- A bare placeholder occurrence `${1}` at the head of the scanner
input. -/
theorem matchPlaceholder_bare (rest : Chars) :
    matchPlaceholder ('$' :: '{' :: '1' :: '}' :: rest) = some (['1'], none, rest) :=
  rfl

/-- No placeholder match at a space. -/
theorem matchPlaceholder_space (t : Chars) :
    matchPlaceholder (' ' :: '$' :: t) = none :=
  rfl

/-- The content measured by C3's amended rule:
`"${1:" ++ a ++ "} ${1} ${1:" ++ b ++ "}"`. -/
def twoDefaultsInput (a b : Chars) : Chars :=
  '$' :: '{' :: '1' :: ':' :: (a ++ '}' :: ' ' :: '$' :: '{' :: '1' :: '}' ::
    ' ' :: '$' :: '{' :: '1' :: ':' :: (b ++ '}' :: []))

theorem substTwoDefaults (a b : Chars) (ha0 : a ≠ []) (hb0 : b ≠ [])
    (ha1 : '}' ∉ a) (ha2 : '\n' ∉ a) (hb1 : '}' ∉ b) (hb2 : '\n' ∉ b) :
    substPlaceholdersC [] (twoDefaultsInput a b)
      = (a ++ ' ' :: (a ++ ' ' :: b),
         [(String.mk ['1'], String.mk b), (String.mk ['1'], String.mk a)]) := by
  obtain ⟨f, hf⟩ : ∃ f, (twoDefaultsInput a b).length = f + 5 :=
    ⟨a.length + b.length + 11, by simp [twoDefaultsInput]; omega⟩
  have haE : a.isEmpty = false := by
    cases a
    · exact absurd rfl ha0
    · rfl
  have hbE : b.isEmpty = false := by
    cases b
    · exact absurd rfl hb0
    · rfl
  unfold substPlaceholdersC
  rw [hf]
  rw [show f + 5 = (f + 4) + 1 from rfl]
  unfold twoDefaultsInput
  simp only [substPlaceholdersAuxC,
    matchPlaceholder_default a _ ha1 ha2,
    matchPlaceholder_default b _ hb1 hb2,
    matchPlaceholder_bare, matchPlaceholder_space,
    haE, hbE, pmGet, Option.getD_some, Bool.false_eq_true,
    not_false_eq_true, if_neg, List.append_nil]
  simp [pmGet]

/-- C3 (amended): within one call, an occurrence carrying a (nonempty)
default always substitutes its own default and overwrites the stored value
for that index — so the **last** default wins for the stored value — while
an occurrence without a default reuses the value stored most recently.  On
`"${1:a} ${1} ${1:b}"` (with defaults free of `'}'`, `'\n'` and `'['`) the
measured length is `|a| + 1 + |a| + 1 + |b|` (the bare `${1}` resolves to
the first default `a`) and the map finally holds `b` under key `"1"`. -/
theorem spec_C3_last_default_wins (a b : Chars) (ha0 : a ≠ []) (hb0 : b ≠ [])
    (ha1 : '}' ∉ a) (ha2 : '\n' ∉ a) (ha3 : '[' ∉ a)
    (hb1 : '}' ∉ b) (hb2 : '\n' ∉ b) (hb3 : '[' ∉ b) :
    (calculateContentLengthC (twoDefaultsInput a b) []).1
      = 2 * a.length + b.length + 2 ∧
    pmGet (calculateContentLengthC (twoDefaultsInput a b) []).2 "1"
      = some (String.mk b) := by
  have hnoLB : '[' ∉ twoDefaultsInput a b := by
    simp [twoDefaultsInput, ha3, hb3]
  unfold calculateContentLengthC
  rw [interpretSpacesC_id _ hnoLB,
    substTwoDefaults a b ha0 hb0 ha1 ha2 hb1 hb2]
  constructor
  · simp only [List.length_append, List.length_cons]
    omega
  · simp [pmGet]

/-- Witness for C3 (amended) at `a = "A"`, `b = "BB"`. -/
theorem spec_C3_last_default_wins_witness :
    (calculateContentLengthC (twoDefaultsInput ['A'] ['B', 'B']) []).1
      = 2 * (['A'] : Chars).length + (['B', 'B'] : Chars).length + 2 ∧
    pmGet (calculateContentLengthC (twoDefaultsInput ['A'] ['B', 'B']) []).2 "1"
      = some (String.mk ['B', 'B']) :=
  spec_C3_last_default_wins ['A'] ['B', 'B'] (by decide) (by decide)
    (by decide) (by decide) (by decide) (by decide) (by decide) (by decide)

theorem splitNLC_ne_nil (s : Chars) : splitNLC s ≠ [] := by
  induction s with
  | nil => simp [splitNLC]
  | cons c cs ih =>
    simp only [splitNLC]
    split
    · simp
    · split <;> simp

theorem mem_splitNLC : ∀ {s p : Chars}, p ∈ splitNLC s → '\n' ∉ p := by
  intro s
  induction s with
  | nil =>
    intro p hp
    simp only [splitNLC, List.mem_singleton] at hp
    subst hp
    simp
  | cons c cs ih =>
    intro p hp
    simp only [splitNLC] at hp
    split at hp
    · rcases List.mem_cons.mp hp with rfl | hp2
      · simp
      · exact ih hp2
    · rename_i hc
      split at hp
      · rename_i heq
        simp only [List.mem_singleton] at hp
        subst hp
        intro hx
        rcases List.mem_cons.mp hx with h1 | h1
        · exact hc h1.symm
        · exact absurd h1 (List.not_mem_nil _)
      · rename_i l ls heq
        rcases List.mem_cons.mp hp with rfl | hp2
        · intro hx
          rcases List.mem_cons.mp hx with h1 | h1
          · exact hc h1.symm
          · exact ih (by rw [heq]; exact List.mem_cons_self l ls) h1
        · exact ih (by rw [heq]; exact List.mem_cons_of_mem l hp2)

theorem splitNLC_append (l r : Chars) (h : '\n' ∉ l) :
    splitNLC (l ++ '\n' :: r) = l :: splitNLC r := by
  induction l with
  | nil => simp [splitNLC]
  | cons c l' ih =>
    have hc : ¬(c = '\n') := fun hh => h (by rw [hh]; exact List.mem_cons_self _ _)
    have hl' : '\n' ∉ l' := fun hh => h (List.mem_cons_of_mem _ hh)
    simp only [List.cons_append, splitNLC, hc, if_false]
    rw [show l'.append ('\n' :: r) = l' ++ '\n' :: r from rfl, ih hl']

theorem splitNLC_no_nl (l : Chars) (h : '\n' ∉ l) : splitNLC l = [l] := by
  induction l with
  | nil => simp [splitNLC]
  | cons c l' ih =>
    have hc : ¬(c = '\n') := fun hh => h (by rw [hh]; exact List.mem_cons_self _ _)
    have hl' : '\n' ∉ l' := fun hh => h (List.mem_cons_of_mem _ hh)
    simp only [splitNLC, hc, if_false, ih hl']

theorem splitNLC_joinNLC : ∀ ls : List Chars, ls ≠ [] → (∀ p ∈ ls, '\n' ∉ p) →
    splitNLC (joinNLC ls) = ls
  | [], h, _ => absurd rfl h
  | [l], _, hall => by
    simp only [joinNLC]
    exact splitNLC_no_nl l (hall l (List.mem_singleton.mpr rfl))
  | l :: l2 :: ls', _, hall => by
    have h1 : '\n' ∉ l := hall l (List.mem_cons_self _ _)
    show splitNLC (l ++ '\n' :: joinNLC (l2 :: ls')) = _
    rw [splitNLC_append _ _ h1,
      splitNLC_joinNLC (l2 :: ls') (by simp)
        (fun p hp => hall p (List.mem_cons_of_mem _ hp))]

theorem mem_of_mem_dropWhile {p : Char → Bool} :
    ∀ {l : Chars} {x : Char}, x ∈ l.dropWhile p → x ∈ l := by
  intro l
  induction l with
  | nil => intro x hx; simp [List.dropWhile] at hx
  | cons c cs ih =>
    intro x hx
    rw [List.dropWhile_cons] at hx
    split at hx
    · exact List.mem_cons_of_mem _ (ih hx)
    · exact hx

theorem mem_trimC {s : Chars} {x : Char} (h : x ∈ trimC s) : x ∈ s := by
  unfold trimC at h
  have h1 := mem_of_mem_dropWhile (List.mem_reverse.mp h)
  exact mem_of_mem_dropWhile (List.mem_reverse.mp h1)

theorem mem_replaceFirstAuxC {pat repl : Chars} {x : Char} :
    ∀ {s : Chars}, x ∈ replaceFirstAuxC pat repl s → x ∈ s ∨ x ∈ repl := by
  intro s
  induction s with
  | nil => intro h; simp [replaceFirstAuxC] at h
  | cons c cs ih =>
    intro h
    simp only [replaceFirstAuxC] at h
    split at h
    · rcases List.mem_append.mp h with h1 | h1
      · exact Or.inr h1
      · exact Or.inl (List.drop_subset _ _ h1)
    · rcases List.mem_cons.mp h with rfl | h1
      · exact Or.inl (List.mem_cons_self _ _)
      · rcases ih h1 with h2 | h2
        · exact Or.inl (List.mem_cons_of_mem _ h2)
        · exact Or.inr h2

theorem mem_replaceFirstC {s pat repl : Chars} {x : Char}
    (h : x ∈ replaceFirstC s pat repl) : x ∈ s ∨ x ∈ repl := by
  unfold replaceFirstC at h
  split at h
  · rcases List.mem_append.mp h with h1 | h1
    · exact Or.inr h1
    · exact Or.inl h1
  · exact mem_replaceFirstAuxC h

theorem mem_replaceFirstC_nil {s pat : Chars} {x : Char}
    (h : x ∈ replaceFirstC s pat []) : x ∈ s :=
  (mem_replaceFirstC h).resolve_right (List.not_mem_nil x)

theorem mem_replaceAllAuxC {pat repl : Chars} {x : Char} :
    ∀ {fuel : Nat} {s : Chars}, x ∈ replaceAllAuxC pat repl fuel s → x ∈ s ∨ x ∈ repl := by
  intro fuel
  induction fuel with
  | zero =>
    intro s h
    cases s with
    | nil => simp [replaceAllAuxC] at h
    | cons c cs => exact Or.inl h
  | succ fuel ih =>
    intro s h
    cases s with
    | nil => simp [replaceAllAuxC] at h
    | cons c cs =>
      simp only [replaceAllAuxC] at h
      split at h
      · rcases List.mem_append.mp h with h1 | h1
        · exact Or.inr h1
        · rcases ih h1 with h2 | h2
          · exact Or.inl (List.mem_cons_of_mem _ (List.drop_subset _ _ h2))
          · exact Or.inr h2
      · rcases List.mem_cons.mp h with rfl | h1
        · exact Or.inl (List.mem_cons_self _ _)
        · rcases ih h1 with h2 | h2
          · exact Or.inl (List.mem_cons_of_mem _ h2)
          · exact Or.inr h2

theorem takeDigits_snd_suffix : ∀ s : Chars, (takeDigits s).2 <:+ s
  | [] => List.suffix_refl _
  | c :: cs => by
    simp only [takeDigits]
    split
    · exact (takeDigits_snd_suffix cs).trans (List.suffix_cons c cs)
    · exact List.suffix_refl _

theorem matchNumMarker_subset {s r : Chars} {n : Nat}
    (h : matchNumMarker s = some (n, r)) : ∀ x ∈ r, x ∈ s := by
  match s with
  | [] => simp [matchNumMarker] at h
  | [_] => simp [matchNumMarker] at h
  | [_, _] => simp [matchNumMarker] at h
  | c1 :: c2 :: c3 :: rest =>
    simp only [matchNumMarker] at h
    split at h
    · split at h
      · exact absurd h (by simp)
      · split at h
        · rename_i r2 heq
          cases h
          intro x hx
          have hsuf : (']' :: r) <:+ rest := heq ▸ takeDigits_snd_suffix rest
          have hx2 : x ∈ rest := hsuf.subset (List.mem_cons_of_mem _ hx)
          exact List.mem_cons_of_mem _ (List.mem_cons_of_mem _ (List.mem_cons_of_mem _ hx2))
        · exact absurd h (by simp)
    · exact absurd h (by simp)

theorem takeUntilRBrace_suffix : ∀ {s a r : Chars},
    takeUntilRBrace s = some (a, r) → r <:+ s := by
  intro s
  induction s with
  | nil => intro a r h; simp [takeUntilRBrace] at h
  | cons c cs ih =>
    intro a r h
    simp only [takeUntilRBrace] at h
    split at h
    · cases h
      exact List.suffix_cons c cs
    · split at h
      · exact absurd h (by simp)
      · split at h
        · rename_i a0 r0 heq
          cases h
          exact (ih heq).trans (List.suffix_cons c cs)
        · exact absurd h (by simp)

theorem matchPlaceholder_subset {s ds r : Chars} {d : Option Chars}
    (h : matchPlaceholder s = some (ds, d, r)) : ∀ x ∈ r, x ∈ s := by
  match s with
  | [] => simp [matchPlaceholder] at h
  | [_] => simp [matchPlaceholder] at h
  | c1 :: c2 :: rest =>
    simp only [matchPlaceholder] at h
    split at h
    · split at h
      · exact absurd h (by simp)
      · split at h
        · rename_i r2 heq
          cases h
          intro x hx
          have hsuf : ('}' :: r) <:+ rest := heq ▸ takeDigits_snd_suffix rest
          have hx2 : x ∈ rest := hsuf.subset (List.mem_cons_of_mem _ hx)
          exact List.mem_cons_of_mem _ (List.mem_cons_of_mem _ hx2)
        · rename_i r2 heq
          split at h
          · rename_i d0 r3 heq2
            cases h
            intro x hx
            have hsuf1 : (':' :: r2) <:+ rest := heq ▸ takeDigits_snd_suffix rest
            have hsuf2 : r <:+ r2 := takeUntilRBrace_suffix heq2
            have hx2 : x ∈ rest := hsuf1.subset (List.mem_cons_of_mem _ (hsuf2.subset hx))
            exact List.mem_cons_of_mem _ (List.mem_cons_of_mem _ hx2)
          · exact absurd h (by simp)
        · exact absurd h (by simp)
    · exact absurd h (by simp)

theorem mem_interpretNumAuxC {x : Char} :
    ∀ {fuel : Nat} {s : Chars}, x ∈ interpretNumAuxC fuel s → x = ' ' ∨ x ∈ s := by
  intro fuel
  induction fuel with
  | zero =>
    intro s h
    cases s with
    | nil => simp [interpretNumAuxC] at h
    | cons c cs => exact Or.inr h
  | succ fuel ih =>
    intro s h
    cases s with
    | nil => simp [interpretNumAuxC] at h
    | cons c cs =>
      simp only [interpretNumAuxC] at h
      split at h
      · rename_i n rest heq
        rcases List.mem_append.mp h with h1 | h1
        · exact Or.inl (List.eq_of_mem_replicate h1)
        · rcases ih h1 with h2 | h2
          · exact Or.inl h2
          · exact Or.inr (matchNumMarker_subset heq x h2)
      · rcases List.mem_cons.mp h with rfl | h1
        · exact Or.inr (List.mem_cons_self _ _)
        · rcases ih h1 with h2 | h2
          · exact Or.inl h2
          · exact Or.inr (List.mem_cons_of_mem _ h2)

theorem mem_interpretSpacesC {s : Chars} {x : Char}
    (h : x ∈ interpretSpacesC s) : x = ' ' ∨ x ∈ s := by
  unfold interpretSpacesC replaceAllC interpretNumC at h
  rcases mem_replaceAllAuxC h with h1 | h1
  · exact mem_interpretNumAuxC h1
  · exact Or.inl (List.mem_singleton.mp h1)

theorem mem_repeatListC {x : Char} {s : Chars} :
    ∀ {n : Nat}, x ∈ repeatListC s n → x ∈ s := by
  intro n
  induction n with
  | zero => intro h; simp [repeatListC] at h
  | succ n ih =>
    intro h
    rcases List.mem_append.mp h with h1 | h1
    · exact h1
    · exact ih h1

theorem noNL_append {a b : Chars} (ha : '\n' ∉ a) (hb : '\n' ∉ b) :
    '\n' ∉ a ++ b :=
  fun h => (List.mem_append.mp h).elim ha hb

theorem mem_ite_nil {c : Prop} [Decidable c] {x : Char} {l : Chars}
    (h : x ∈ (if c then l else [])) : x ∈ l := by
  split at h
  · exact h
  · exact absurd h (List.not_mem_nil x)

theorem noNL_ite_nil {c : Prop} [Decidable c] {l : Chars} (h : '\n' ∉ l) :
    '\n' ∉ (if c then l else []) :=
  fun hx => h (mem_ite_nil hx)

theorem noNL_ite {c : Prop} [Decidable c] {a b : Chars}
    (ha : '\n' ∉ a) (hb : '\n' ∉ b) : '\n' ∉ (if c then a else b) := by
  split
  · exact ha
  · exact hb

theorem noNL_spaceList : '\n' ∉ ([' '] : Chars) := by decide

theorem noNL_replicate_space {n : Nat} : '\n' ∉ List.replicate n ' ' :=
  fun h => absurd (List.eq_of_mem_replicate h) (by decide)

theorem noNL_repeatListC {s : Chars} {n : Nat} (h : '\n' ∉ s) :
    '\n' ∉ repeatListC s n :=
  fun hx => h (mem_repeatListC hx)

theorem noNL_cons_space_wrap {l : Chars} (h : '\n' ∉ l) :
    '\n' ∉ (' ' :: (l ++ [' '])) := by
  intro hx
  rcases List.mem_cons.mp hx with h1 | h1
  · exact absurd h1 (by decide)
  · rcases List.mem_append.mp h1 with h2 | h2
    · exact h h2
    · exact absurd (List.mem_singleton.mp h2) (by decide)

theorem noNL_replaceAllC {pat repl s : Chars} (hs : '\n' ∉ s) (hr : '\n' ∉ repl) :
    '\n' ∉ replaceAllC pat repl s :=
  fun hx => (mem_replaceAllAuxC hx).elim hs hr

theorem noNL_replaceFirstC {s pat repl : Chars} (hs : '\n' ∉ s) (hr : '\n' ∉ repl) :
    '\n' ∉ replaceFirstC s pat repl :=
  fun hx => (mem_replaceFirstC hx).elim hs hr

theorem noNL_strippedContent {line mls mle sls sle : Chars} (h : '\n' ∉ line) :
    '\n' ∉ strippedContent line mls mle sls sle := by
  intro hx
  exact h (mem_replaceFirstC_nil (mem_replaceFirstC_nil (mem_replaceFirstC_nil
    (mem_replaceFirstC_nil (mem_replaceFirstC_nil (mem_replaceFirstC_nil
      (mem_trimC hx)))))))

theorem noNL_interpretedContent {line mls mle sls sle : Chars} (h : '\n' ∉ line) :
    '\n' ∉ interpretedContent line mls mle sls sle := by
  intro hx
  rcases mem_interpretSpacesC hx with h1 | h1
  · exact absurd h1 (by decide)
  · exact noNL_strippedContent h h1

set_option maxHeartbeats 1600000 in
theorem adjustLineLengthC_noNL {line : Chars} {b : Int} {sep mls mle sls sle : Chars}
    {pm : PMap} (hline : '\n' ∉ line) (hsep : '\n' ∉ sep)
    (h1 : '\n' ∉ mls) (h2 : '\n' ∉ mle) (h3 : '\n' ∉ sls) (h4 : '\n' ∉ sle) :
    '\n' ∉ (adjustLineLengthC line b sep mls mle sls sle pm).1 := by
  have hic : '\n' ∉ interpretedContent line mls mle sls sle :=
    noNL_interpretedContent hline
  simp only [adjustLineLengthC]
  by_cases hf : containsSubC line fillTok = true
  · rw [if_pos hf]
    by_cases hneg : b - ((contentLengthPair line mls mle sls sle pm).1 : Int)
        - (startLengthOf line mls sls : Int) - (endLengthOf line mle sle : Int)
        - (spacesBetweenOf (startLengthOf line mls sls) (endLengthOf line mle sle)
            (contentLengthPair line mls mle sls sle pm).1 : Int) < 0
    · rw [if_pos hneg]
      exact hline
    · rw [if_neg hneg]
      exact noNL_append (noNL_append (noNL_append (noNL_append (noNL_append
        (noNL_append (noNL_append
          (noNL_append (noNL_ite_nil h1) (noNL_ite_nil h3))
          (noNL_ite_nil noNL_spaceList))
        (noNL_repeatListC hsep))
        (noNL_ite_nil (noNL_cons_space_wrap hic)))
        (noNL_ite_nil hsep))
        (noNL_repeatListC hsep))
        (noNL_ite_nil noNL_spaceList))
        (noNL_append (noNL_ite_nil h2) (noNL_ite_nil h4))
  · rw [if_neg hf]
    by_cases hsp : containsSubC line spaceFillTok = true
    · rw [if_pos hsp]
      by_cases hneg : b - ((contentLengthPair line mls mle sls sle pm).1 : Int)
          - (startLengthOf line mls sls : Int) - (endLengthOf line mle sle : Int)
          - (spacesBetweenOf (startLengthOf line mls sls) (endLengthOf line mle sle)
              (contentLengthPair line mls mle sls sle pm).1 : Int) < 0
      · rw [if_pos hneg]
        exact hline
      · rw [if_neg hneg]
        exact noNL_append (noNL_append (noNL_append (noNL_append (noNL_append
          (noNL_append (noNL_append (noNL_append (noNL_append
            (noNL_append (noNL_ite_nil h1) (noNL_ite_nil h3))
            (noNL_ite_nil noNL_spaceList))
          hsep)
          noNL_replicate_space)
          hic)
          (noNL_ite_nil noNL_spaceList))
          noNL_replicate_space)
          hsep)
          (noNL_ite_nil noNL_spaceList))
          (noNL_append (noNL_ite_nil h2) (noNL_ite_nil h4))
    · rw [if_neg hsp]
      exact noNL_append (noNL_append
        (noNL_append (noNL_ite_nil h1) (noNL_ite_nil h3)) hic)
        (noNL_append (noNL_ite_nil h2) (noNL_ite_nil h4))

theorem noNL_cons {c : Char} {l : Chars} (hc : ¬('\n' = c)) (h : '\n' ∉ l) :
    '\n' ∉ c :: l :=
  fun hx => (List.mem_cons.mp hx).elim hc h

theorem processLineC_noNL {style : CommentStyle} {b : Int} {sep : Chars}
    {pm : PMap} {line0 : Chars} (hline : '\n' ∉ line0) (hsep : '\n' ∉ sep)
    (hs1 : '\n' ∉ style.singleLine.1.data) (hs2 : '\n' ∉ style.singleLine.2.data)
    (hml : ∀ p, style.multiLine = some p → '\n' ∉ p.1.data ∧ '\n' ∉ p.2.data) :
    '\n' ∉ (processLineC style b sep pm line0).1 := by
  have hline1 : '\n' ∉ replaceAllC sleTok style.singleLine.2.data
      (replaceAllC slsTok style.singleLine.1.data line0) :=
    noNL_replaceAllC (noNL_replaceAllC hline hs1) hs2
  simp only [processLineC]
  cases hm : style.multiLine with
  | none =>
    have hline2 : '\n' ∉ replaceAllC mleTok style.singleLine.2.data
        (replaceAllC mlsTok style.singleLine.1.data
          (replaceAllC sleTok style.singleLine.2.data
            (replaceAllC slsTok style.singleLine.1.data line0))) :=
      noNL_replaceAllC (noNL_replaceAllC hline1 hs1) hs2
    refine adjustLineLengthC_noNL ?_ hsep (by simp) (by simp)
      (noNL_ite_nil hs1) (noNL_ite_nil hs2)
    apply noNL_ite
    · exact noNL_append hs1 (noNL_cons (by decide) hline2)
    · apply noNL_ite
      · exact noNL_replaceFirstC hline2 (noNL_append hs1 noNL_spaceList)
      · exact hline2
  | some ml =>
    obtain ⟨hm1, hm2⟩ := hml ml hm
    have hline2 : '\n' ∉ replaceAllC mleTok ml.2.data
        (replaceAllC mlsTok ml.1.data
          (replaceAllC sleTok style.singleLine.2.data
            (replaceAllC slsTok style.singleLine.1.data line0))) :=
      noNL_replaceAllC (noNL_replaceAllC hline1 hm1) hm2
    refine adjustLineLengthC_noNL ?_ hsep (noNL_ite_nil hm1) (noNL_ite_nil hm2)
      (noNL_ite_nil hs1) (noNL_ite_nil hs2)
    apply noNL_ite
    · apply noNL_ite
      · exact noNL_replaceFirstC hline2 (noNL_append hm1 noNL_spaceList)
      · exact hline2
    · apply noNL_ite
      · exact noNL_replaceFirstC hline2 (noNL_append hm1 noNL_spaceList)
      · apply noNL_ite
        · exact noNL_replaceFirstC
            (noNL_replaceFirstC hline2 (noNL_append hm1 noNL_spaceList))
            (noNL_cons (by decide) hm2)
        · exact hline2

theorem processLinesC_length (style : CommentStyle) (b : Int) (sep : Chars) :
    ∀ (pm : PMap) (ls : List Chars),
      (processLinesC style b sep pm ls).1.length = ls.length
  | _, [] => rfl
  | pm, l :: ls => by
    simp only [processLinesC, List.length_cons]
    rw [processLinesC_length style b sep _ ls]

theorem processLinesC_noNL {style : CommentStyle} {b : Int} {sep : Chars}
    (hsep : '\n' ∉ sep)
    (hs1 : '\n' ∉ style.singleLine.1.data) (hs2 : '\n' ∉ style.singleLine.2.data)
    (hml : ∀ p, style.multiLine = some p → '\n' ∉ p.1.data ∧ '\n' ∉ p.2.data) :
    ∀ (pm : PMap) (ls : List Chars), (∀ l ∈ ls, '\n' ∉ l) →
      ∀ p ∈ (processLinesC style b sep pm ls).1, '\n' ∉ p := by
  intro pm ls
  induction ls generalizing pm with
  | nil => intro _ p hp; exact absurd hp (List.not_mem_nil p)
  | cons l ls ih =>
    intro hall p hp
    simp only [processLinesC] at hp
    rcases List.mem_cons.mp hp with rfl | hp2
    · exact processLineC_noNL (hall l (List.mem_cons_self _ _)) hsep hs1 hs2 hml
    · exact ih _ (fun q hq => hall q (List.mem_cons_of_mem _ hq)) p hp2

/-- Decidable check that a registry entry's delimiters contain no newline. -/
def styleNoNL (st : CommentStyle) : Bool :=
  decide ('\n' ∉ st.singleLine.1.data) && decide ('\n' ∉ st.singleLine.2.data) &&
  (match st.multiLine with
   | none => true
   | some p => decide ('\n' ∉ p.1.data) && decide ('\n' ∉ p.2.data))

theorem commentStyles_styleNoNL :
    commentStyles.all (fun p => styleNoNL p.2) = true := by
  decide

theorem styleNoNL_spec (st : CommentStyle) (h : styleNoNL st = true) :
    '\n' ∉ st.singleLine.1.data ∧ '\n' ∉ st.singleLine.2.data ∧
    (∀ p, st.multiLine = some p → '\n' ∉ p.1.data ∧ '\n' ∉ p.2.data) := by
  unfold styleNoNL at h
  cases hm : st.multiLine with
  | none =>
    rw [hm] at h
    simp only [Bool.and_true, Bool.and_eq_true, decide_eq_true_eq] at h
    exact ⟨h.1, h.2, fun p hp => absurd hp (by simp)⟩
  | some ml =>
    rw [hm] at h
    simp only [Bool.and_eq_true, decide_eq_true_eq] at h
    refine ⟨h.1.1, h.1.2, fun p hp => ?_⟩
    cases hp
    exact h.2

theorem lookupAssoc_mem {α : Type} :
    ∀ {l : List (String × α)} {k : String} {v : α},
      lookupAssoc l k = some v → (k, v) ∈ l := by
  intro l
  induction l with
  | nil => intro k v h; simp [lookupAssoc] at h
  | cons p m ih =>
    intro k v h
    rw [show lookupAssoc (p :: m) k
        = if p.1 = k then some p.2 else lookupAssoc m k from rfl] at h
    split at h
    · rename_i heq
      cases h
      rcases p with ⟨k', v'⟩
      rcases heq
      exact List.mem_cons_self _ _
    · exact List.mem_cons_of_mem _ (ih h)

/-- C10: for every language of the registry, a cache miss, and a separator
free of newlines, the generated string has exactly as many
newline-separated lines as the template: the per-line pipeline never
inserts or removes a line break. -/
theorem spec_C10_line_count (cache : PMap) (baseLength : Int)
    (separator language key pattern : String)
    (hstyle : (lookupAssoc commentStyles language).isSome = true)
    (hmiss : lookupAssoc cache (language ++ "-" ++ key) = none)
    (hsep : '\n' ∉ separator.data) :
    countLines (generateCommentPattern cache baseLength separator language key pattern).1
      = countLines pattern := by
  obtain ⟨st, hst⟩ := Option.isSome_iff_exists.mp hstyle
  have hmem := lookupAssoc_mem hst
  have hok : styleNoNL st = true := by
    have hall := List.all_eq_true.mp commentStyles_styleNoNL _ hmem
    simpa using hall
  obtain ⟨hA, hB, hC⟩ := styleNoNL_spec st hok
  simp only [generateCommentPattern, hmiss, hst]
  unfold countLines
  show (splitNLC (joinNLC
      (processLinesC st baseLength separator.data [] (splitNLC pattern.data)).1)).length
    = (splitNLC pattern.data).length
  have houts : ∀ p ∈ (processLinesC st baseLength separator.data []
      (splitNLC pattern.data)).1, '\n' ∉ p :=
    processLinesC_noNL hsep hA hB hC [] (splitNLC pattern.data)
      (fun l hl => mem_splitNLC hl)
  have hne : (processLinesC st baseLength separator.data []
      (splitNLC pattern.data)).1 ≠ [] := by
    intro h0
    have hlen := processLinesC_length st baseLength separator.data []
      (splitNLC pattern.data)
    rw [h0] at hlen
    exact splitNLC_ne_nil pattern.data (List.length_eq_zero.mp hlen.symm)
  rw [splitNLC_joinNLC _ hne houts,
    processLinesC_length st baseLength separator.data [] (splitNLC pattern.data)]

/-- Witness for C10 at a concrete three-line template. -/
theorem spec_C10_line_count_witness :
    countLines (generateCommentPattern [] 40 "=" "javascript" "kk" "a\nb\nc").1
      = countLines "a\nb\nc" :=
  spec_C10_line_count [] 40 "=" "javascript" "kk" "a\nb\nc"
    (by decide) (by decide) (by decide)

end CommentToolkit
